import Mathlib

/-!
Verification of the filter-rule engine in `src/src/filter.cpp` (namespace
`mega`): the textual rule grammar of `FilterChain::add`, ordered short-circuit
evaluation in `FilterClass::match`, and the transactional reload in
`FilterChain::load`.

Strings are modelled as `List Char`.  `std::string::data()` is
null-terminated, so reading one position past the stored characters yields
`'\x00'`; `charAt` reproduces that.  The two external matching collaborators
(`wildcardMatch` from `mega/utils` and `std::regex`) are not part of the
given sources and are modelled from the spec, as marked below.
-/

namespace MegaFilter

/-- Strings as character lists. -/
abbrev Str := List Char

/-- Coerce a Lean string literal to the character-list model. -/
def str (s : String) : Str := s.data

/-- Read the byte at index `i` of a null-terminated buffer: past the stored
characters, `std::string::data()` yields the terminator `'\x00'`. -/
def charAt (s : Str) (i : Nat) : Char := s.getD i (Char.ofNat 0)

/-- Predicate for `std::isspace` in the default locale (as used by the `isEmpty` helper):
space, tab, newline, vertical tab, form feed, carriage return. -/
def isSpaceChar (c : Char) : Bool :=
  c = ' ' || c = '\t' || c = '\n' || c = Char.ofNat 11 || c = Char.ofNat 12 || c = '\r'

/-- Try a continuation on every suffix of the string, shortest-first from the
full string down to the empty one (the search a `*` wildcard performs). -/
def starLoop (f : Str → Bool) : Str → Bool
  | [] => f []
  | s1 :: s2 => f (s1 :: s2) || starLoop f s2

/-- Modelled from the spec: the external `wildcardMatch(candidate, pattern)`
collaborator (declared in `mega/utils.h`, body not among the given sources):
case-sensitive shell-wildcard matching where `*` matches any run of
characters and `?` matches exactly one character. -/
def wildcardMatch (s p : Str) : Bool :=
  match p, s with
  | [], s => s.isEmpty
  | c :: ps, s =>
    if c = '*' then starLoop (fun s2 => wildcardMatch s2 ps) s
    else
      match s with
      | [] => false
      | d :: s2 => (c = '?' || c = d) && wildcardMatch s2 ps

/-- Modelled from the spec: abstract syntax of the fragment of POSIX extended
regular expressions used to model `std::regex` (extended syntax).  `zero`
denotes the empty language, `eps` the empty string, `chr c` a literal
character, `dot` any single character. -/
inductive Regex where
  | zero : Regex
  | eps : Regex
  | chr : Char → Regex
  | dot : Regex
  | cat : Regex → Regex → Regex
  | alt : Regex → Regex → Regex
  | star : Regex → Regex
deriving DecidableEq, Repr

/-- Declarative anchored (full-string) matching semantics of a regular
expression: `RMatch r s` holds exactly when the ENTIRE string `s` belongs to
the language of `r`. -/
inductive RMatch : Regex → Str → Prop where
  | eps : RMatch Regex.eps []
  | chr (c : Char) : RMatch (Regex.chr c) [c]
  | dot (c : Char) : RMatch Regex.dot [c]
  | cat {r1 r2 : Regex} {s1 s2 : Str} :
      RMatch r1 s1 → RMatch r2 s2 → RMatch (Regex.cat r1 r2) (s1 ++ s2)
  | altL {r1 r2 : Regex} {s : Str} : RMatch r1 s → RMatch (Regex.alt r1 r2) s
  | altR {r1 r2 : Regex} {s : Str} : RMatch r2 s → RMatch (Regex.alt r1 r2) s
  | starNil {r : Regex} : RMatch (Regex.star r) []
  | starCat {r : Regex} {s1 s2 : Str} :
      RMatch r s1 → RMatch (Regex.star r) s2 → RMatch (Regex.star r) (s1 ++ s2)

/-- Does the regex accept the empty string? -/
def nullable : Regex → Bool
  | Regex.zero => false
  | Regex.eps => true
  | Regex.chr _ => false
  | Regex.dot => false
  | Regex.cat r1 r2 => nullable r1 && nullable r2
  | Regex.alt r1 r2 => nullable r1 || nullable r2
  | Regex.star _ => true

/-- Brzozowski derivative of a regex by one character. -/
def deriv : Regex → Char → Regex
  | Regex.zero, _ => Regex.zero
  | Regex.eps, _ => Regex.zero
  | Regex.chr c, a => if a = c then Regex.eps else Regex.zero
  | Regex.dot, _ => Regex.eps
  | Regex.cat r1 r2, a =>
    if nullable r1 then Regex.alt (Regex.cat (deriv r1 a) r2) (deriv r2 a)
    else Regex.cat (deriv r1 a) r2
  | Regex.alt r1 r2, a => Regex.alt (deriv r1 a) (deriv r2 a)
  | Regex.star r, a => Regex.cat (deriv r a) (Regex.star r)

/-- Executable anchored matcher: `std::regex_match(s, re)` demands that the
whole candidate match, which the derivative matcher computes. -/
def regexMatch (r : Regex) (s : Str) : Bool :=
  nullable (s.foldl deriv r)

/-- Fold the postfix repetition operators of an extended regex onto an atom:
`*` is Kleene star, `+` is one-or-more, `?` is optional. -/
def parsePostfix (r : Regex) (s : Str) : Regex × Str :=
  match s with
  | '*' :: rest => parsePostfix (Regex.star r) rest
  | '+' :: rest => parsePostfix (Regex.cat r (Regex.star r)) rest
  | '?' :: rest => parsePostfix (Regex.alt Regex.eps r) rest
  | _ => (r, s)

mutual

/-- Modelled from the spec: one atom of a POSIX extended regular expression
(`std::regex_constants::extended`, engine not among the given sources) — a
parenthesised alternation, `.`, a `\`-quoted character, an anchor (which under
full-string matching at the pattern edge is the empty string), or an ordinary
character.  A repetition operator with nothing to repeat, an unbalanced
parenthesis and a bracket expression (outside the modelled fragment) are
compile errors, which `std::regex` reports by throwing `std::regex_error`. -/
def parseAtom (fuel : Nat) (s : Str) : Option (Regex × Str) :=
  match fuel with
  | 0 => none
  | fuel + 1 =>
    match s with
    | [] => none
    | c :: rest =>
      if c = '(' then
        match parseAltR fuel rest with
        | some (r, ')' :: rest3) => some (r, rest3)
        | _ => none
      else if c = '.' then some (Regex.dot, rest)
      else if c = '\\' then
        match rest with
        | [] => none
        | d :: rest2 => some (Regex.chr d, rest2)
      else if c = '^' || c = '$' then some (Regex.eps, rest)
      else if c = '*' || c = '+' || c = '?' || c = '|' || c = ')' || c = '[' then none
      else some (Regex.chr c, rest)

/-- An atom with its postfix repetition operators. -/
def parsePieceR (fuel : Nat) (s : Str) : Option (Regex × Str) :=
  match fuel with
  | 0 => none
  | fuel + 1 =>
    match parseAtom fuel s with
    | some (r, rest) => some (parsePostfix r rest)
    | none => none

/-- A branch: the concatenation of pieces up to `|`, `)` or the end. -/
def parseCatR (fuel : Nat) (s : Str) : Option (Regex × Str) :=
  match fuel with
  | 0 => none
  | fuel + 1 =>
    match s with
    | [] => some (Regex.eps, [])
    | c :: _ =>
      if c = ')' || c = '|' then some (Regex.eps, s)
      else
        match parsePieceR fuel s with
        | some (r, rest) =>
          match parseCatR fuel rest with
          | some (r2, rest2) => some (Regex.cat r r2, rest2)
          | none => none
        | none => none

/-- An alternation: branches separated by `|`. -/
def parseAltR (fuel : Nat) (s : Str) : Option (Regex × Str) :=
  match fuel with
  | 0 => none
  | fuel + 1 =>
    match parseCatR fuel s with
    | some (r, '|' :: rest2) =>
      match parseAltR fuel rest2 with
      | some (r2, rest3) => some (Regex.alt r r2, rest3)
      | none => none
    | some (r, rest) => some (r, rest)
    | none => none

end

/-- Modelled from the spec: compiling a pattern as a POSIX extended regular
expression, as the `RegexFilter` constructor does via `std::regex(text,
extended | optimize)`; `none` plays the role of the thrown
`std::regex_error`. -/
def regexCompile (p : Str) : Option Regex :=
  match parseAltR (2 * p.length + 2) p with
  | some (r, []) => some r
  | _ => none

/-- Enumeration `FilterType` from `mega/filter.h`: the matching axis of a rule. -/
inductive FilterType where
  | FT_NAME : FilterType
  | FT_PATH : FilterType
deriving DecidableEq, Repr

export FilterType (FT_NAME FT_PATH)

/-- Enumeration `FilterStrategy` from `mega/filter.h`: how a rule's pattern is matched. -/
inductive FilterStrategy where
  | FS_GLOB : FilterStrategy
  | FS_REGEX : FilterStrategy
deriving DecidableEq, Repr

export FilterStrategy (FS_GLOB FS_REGEX)

/-- Is the strategy the regex strategy?  (Bridges the code's `bool regex`
parsing variable and the `FilterStrategy` vocabulary of the spec.) -/
def FilterStrategy.isRx : FilterStrategy → Bool
  | FS_GLOB => false
  | FS_REGEX => true

/-- The concrete subclass of an owned `Filter`: a `GlobFilter`, or a
`RegexFilter` carrying its compiled pattern (`mRegex`). -/
inductive FilterImpl where
  | glob : FilterImpl
  | regex : Regex → FilterImpl
deriving DecidableEq, Repr

/-- A compiled rule: `Filter`'s fields `mText`, `mInheritable`, `mType`,
together with which concrete subclass it is. -/
structure Filter where
  mText : Str
  mInheritable : Bool
  mType : FilterType
  impl : FilterImpl
deriving DecidableEq, Repr

/-- Accessor `Filter::strategy()`: `FS_GLOB` for a `GlobFilter`, `FS_REGEX` for a
`RegexFilter`. -/
def Filter.strategy (f : Filter) : FilterStrategy :=
  match f.impl with
  | FilterImpl.glob => FS_GLOB
  | FilterImpl.regex _ => FS_REGEX

/-- Virtual `Filter::match(s)`: `GlobFilter::match` calls
`wildcardMatch(s.c_str(), mText.c_str())`; `RegexFilter::match` calls
`std::regex_match(s, mRegex)` (anchored full match of the compiled regex). -/
def Filter.matches (f : Filter) (s : Str) : Bool :=
  match f.impl with
  | FilterImpl.glob => wildcardMatch s f.mText
  | FilterImpl.regex r => regexMatch r s

/-- Structure `FilterClass`: one direction's rules, partitioned into name-rules
(`mNames`) and path-rules (`mPaths`), in insertion order. -/
structure FilterClass where
  mNames : List Filter
  mPaths : List Filter
deriving DecidableEq, Repr

/-- Method `FilterClass::add`: append the filter to `mNames` or `mPaths` according
to its type. -/
def FilterClass.add (fc : FilterClass) (f : Filter) : FilterClass :=
  match f.mType with
  | FT_NAME => { fc with mNames := fc.mNames ++ [f] }
  | FT_PATH => { fc with mPaths := fc.mPaths ++ [f] }

/-- Method `FilterClass::empty()`. -/
def FilterClass.emptyB (fc : FilterClass) : Bool :=
  fc.mNames.isEmpty && fc.mPaths.isEmpty

/-- One loop of `FilterClass::match`: walk the rules in order, skip a rule if
`onlyInheritable` is set and the rule is not inheritable, return true on the
first rule whose `match` accepts the candidate string. -/
def matchLoop : List Filter → Str → Bool → Bool
  | [], _, _ => false
  | f :: fs, s, oi =>
    if oi && !f.mInheritable then matchLoop fs s oi
    else if f.matches s then true
    else matchLoop fs s oi

/-- A candidate `string_pair`: `first` is the entry's name, `second` its
path (path-rules are tested against `p.second`, name-rules against
`p.first`). -/
structure StringPair where
  first : Str
  second : Str
deriving DecidableEq, Repr

/-- Method `FilterClass::match(p, onlyInheritable)`: the path-rule loop over
`mPaths` against `p.second`, then the name-rule loop over `mNames` against
`p.first`; false if neither loop matched. -/
def FilterClass.matchPair (fc : FilterClass) (p : StringPair) (onlyInheritable : Bool) : Bool :=
  if matchLoop fc.mPaths p.second onlyInheritable then true
  else if matchLoop fc.mNames p.first onlyInheritable then true
  else false

/-- Structure `FilterChain`: the exclusion rules and the inclusion rules. -/
structure FilterChain where
  mExclusions : FilterClass
  mInclusions : FilterClass
deriving DecidableEq, Repr

/-- A default-constructed (empty) chain; also the state after
`FilterChain::clear()`. -/
def emptyChain : FilterChain := ⟨⟨[], []⟩, ⟨[], []⟩⟩

/-- Method `FilterChain::empty()`. -/
def FilterChain.emptyB (fc : FilterChain) : Bool :=
  fc.mExclusions.emptyB && fc.mInclusions.emptyB

/-- Method `FilterChain::excluded(p, onlyInheritable)`. -/
def FilterChain.excluded (fc : FilterChain) (p : StringPair) (onlyInheritable : Bool) : Bool :=
  fc.mExclusions.matchPair p onlyInheritable

/-- Method `FilterChain::included(p, onlyInheritable)`. -/
def FilterChain.included (fc : FilterChain) (p : StringPair) (onlyInheritable : Bool) : Bool :=
  fc.mInclusions.matchPair p onlyInheritable

/-- Final stage of `FilterChain::add`: after the sign, axis and strategy
tokens have left the cursor at index `i`, require a literal `':'`, reject an
effectively empty pattern (`isEmpty`: every remaining byte is whitespace,
which is also the case for a pattern of zero bytes), then construct the
filter — for the regex strategy this fails exactly when the pattern does not
compile. -/
def parseTail (text : Str) (exclusion : Bool) (ty : FilterType) (inh : Bool)
    (isRegex : Bool) (i : Nat) : Option (Bool × Filter) :=
  if charAt text i = ':' then
    if (text.drop (i + 1)).all isSpaceChar then none
    else if isRegex then
      match regexCompile (text.drop (i + 1)) with
      | some r => some (exclusion, ⟨text.drop (i + 1), inh, ty, FilterImpl.regex r⟩)
      | none => none
    else some (exclusion, ⟨text.drop (i + 1), inh, ty, FilterImpl.glob⟩)
  else none

/-- Strategy-token switch of `FilterChain::add` at cursor `i`: `'g'` selects
glob and consumes the character, `'r'` selects regex and consumes it, any
other character selects glob without consuming. -/
def parseStrat (text : Str) (exclusion : Bool) (ty : FilterType) (inh : Bool)
    (i : Nat) : Option (Bool × Filter) :=
  if charAt text i = 'g' then parseTail text exclusion ty inh false (i + 1)
  else if charAt text i = 'r' then parseTail text exclusion ty inh true (i + 1)
  else parseTail text exclusion ty inh false i

/-- Type-token switch of `FilterChain::add` at index 1 (just after the sign):
`'N'` falls through to set a non-inheritable name filter consuming the
character, `'n'` an inheritable name filter consuming the character, `'p'` a
path filter consuming the character, and anything else an inheritable name
filter without consuming. -/
def parseFilterRest (text : Str) (exclusion : Bool) : Option (Bool × Filter) :=
  if charAt text 1 = 'N' then parseStrat text exclusion FT_NAME false 2
  else if charAt text 1 = 'n' then parseStrat text exclusion FT_NAME true 2
  else if charAt text 1 = 'p' then parseStrat text exclusion FT_PATH true 2
  else parseStrat text exclusion FT_NAME true 1

/-- The parsing portion of `FilterChain::add(text)`: the leading sign switch
(`'-'` exclusion, `'+'` inclusion, anything else — including the terminator
read on an empty line — a syntax error), then the token switches and filter
construction.  `none` is the `return syntaxError(text)` outcome; a successful
parse yields the direction and the constructed filter, which `add` then
routes. -/
def parseFilter (text : Str) : Option (Bool × Filter) :=
  if charAt text 0 = '-' then parseFilterRest text true
  else if charAt text 0 = '+' then parseFilterRest text false
  else none

/-- Method `FilterChain::add(text)`: on a failed parse return false with the chain
untouched; on success move the new filter into `mExclusions` or
`mInclusions` according to the sign and return true. -/
def FilterChain.add (fc : FilterChain) (text : Str) : Bool × FilterChain :=
  match parseFilter text with
  | none => (false, fc)
  | some (true, f) => (true, { fc with mExclusions := fc.mExclusions.add f })
  | some (false, f) => (true, { fc with mInclusions := fc.mInclusions.add f })

/-- The line loop of `FilterChain::load`: starting from the cleared live
state, skip lines whose first character is `'#'`, `add` every other line,
and on the first failure restore the snapshot `orig` and report failure. -/
def loadGo (orig : FilterChain) : FilterChain → List Str → Bool × FilterChain
  | acc, [] => (true, acc)
  | acc, l :: rest =>
    if charAt l 0 = '#' then loadGo orig acc rest
    else
      match FilterChain.add acc l with
      | (true, acc2) => loadGo orig acc2 rest
      | (false, _) => (false, orig)

/-- Method `FilterChain::load`: the line source either fails (`readLines` returns
false — modelled as `none` — and `load` returns false with the chain
untouched) or yields the ordered list of non-empty lines, after which the
current rule sets are snapshotted, the live state cleared, and every
non-comment line added. -/
def FilterChain.load (fc : FilterChain) (input : Option (List Str)) : Bool × FilterChain :=
  match input with
  | none => (false, fc)
  | some lines => loadGo fc emptyChain lines

/-- Rendering helper `toString(FilterType)`. -/
def typeText : FilterType → Str
  | FT_NAME => str "NAME"
  | FT_PATH => str "PATH"

/-- Rendering helper `toString(FilterStrategy)`. -/
def strategyText : FilterStrategy → Str
  | FS_GLOB => str "GLOB"
  | FS_REGEX => str "REGEX"

/-- Rendering helper `toString(const Filter&)`: `"<type>/<strategy>:<text>"`. -/
def filterText (f : Filter) : Str :=
  typeText f.mType ++ str "/" ++ strategyText f.strategy ++ str ":" ++ f.mText

/-- Spec-side statement of the axis-token rules (§4.3 of the spec, claim C3):
for the character examined after the sign, return the selected axis, the
inheritable flag, and how many characters the token consumed. -/
def specAxis (c : Char) : FilterType × Bool × Nat :=
  if c = 'N' then (FT_NAME, false, 1)
  else if c = 'n' then (FT_NAME, true, 1)
  else if c = 'p' then (FT_PATH, true, 1)
  else (FT_NAME, true, 0)

/-- Spec-side statement of the strategy-token rules (§4.3, claim C3): the
selected strategy and how many characters the token consumed. -/
def specStrat (c : Char) : FilterStrategy × Nat :=
  if c = 'g' then (FS_GLOB, 1)
  else if c = 'r' then (FS_REGEX, 1)
  else (FS_GLOB, 0)

/-- Spec-side: the index at which the mandatory `':'` must sit — one for the
sign, plus the characters consumed by the axis and strategy tokens. -/
def specColonPos (t : Str) : Nat :=
  1 + (specAxis (charAt t 1)).2.2 + (specStrat (charAt t (1 + (specAxis (charAt t 1)).2.2))).2

/-- Spec-side: the pattern — every character after the `':'`. -/
def specPattern (t : Str) : Str := t.drop (specColonPos t + 1)

/-- Spec-side: the strategy selected for the line by the token rules. -/
def specStrategyOf (t : Str) : FilterStrategy :=
  (specStrat (charAt t (1 + (specAxis (charAt t 1)).2.2))).1

/-- Spec-side failure condition of `add` (claim C2): invalid leading sign,
missing `':'` separator after the optional axis and strategy tokens, a
pattern that is empty or all whitespace, or a regex pattern that fails to
compile. -/
def AddFails (t : Str) : Prop :=
  (charAt t 0 ≠ '-' ∧ charAt t 0 ≠ '+')
  ∨ charAt t (specColonPos t) ≠ ':'
  ∨ (specPattern t).all isSpaceChar = true
  ∨ (specStrategyOf t = FS_REGEX ∧ regexCompile (specPattern t) = none)

/-- A rule is applicable under the inheritance gate unless `onlyInheritable`
is set and the rule is non-inheritable (claim C4's wording). -/
def applicable (oi : Bool) (f : Filter) : Bool := !(oi && !f.mInheritable)

/-- Would `FilterChain::add` accept this line?  (The outcome is independent
of the chain it is called on.) -/
def addOK (t : Str) : Bool := (parseFilter t).isSome

/-- Is the line a comment, i.e. is its first character `'#'`? -/
def isComment (l : Str) : Bool := decide (charAt l 0 = '#')

/-- A line that `load` will neither skip nor parse successfully. -/
def badLine (l : Str) : Bool := !isComment l && !addOK l

/-- Spec-side: the direction/filter pairs parsed from the non-comment lines,
in order. -/
def parsedOf (lines : List Str) : List (Bool × Filter) :=
  lines.filterMap (fun l => if charAt l 0 = '#' then none else parseFilter l)

/-- Spec-side: of the parsed direction/filter pairs, those for direction `e`
(true = exclusion) and axis `ty`, in order. -/
def pick (e : Bool) (ty : FilterType) (ps : List (Bool × Filter)) : List Filter :=
  (ps.filter (fun x => decide (x.1 = e) && decide (x.2.mType = ty))).map Prod.snd

/-- Spec-side: the chain consisting exactly of the given parsed filters,
routed by direction and axis, in order. -/
def chainOf (ps : List (Bool × Filter)) : FilterChain :=
  ⟨⟨pick true FT_NAME ps, pick true FT_PATH ps⟩,
   ⟨pick false FT_NAME ps, pick false FT_PATH ps⟩⟩

/-- Append the given parsed filters, routed by direction and axis, behind
the rules already in `acc` (the invariant shape of the `load` loop). -/
def mergeChain (acc : FilterChain) (ps : List (Bool × Filter)) : FilterChain :=
  ⟨⟨acc.mExclusions.mNames ++ pick true FT_NAME ps,
    acc.mExclusions.mPaths ++ pick true FT_PATH ps⟩,
   ⟨acc.mInclusions.mNames ++ pick false FT_NAME ps,
    acc.mInclusions.mPaths ++ pick false FT_PATH ps⟩⟩

theorem zero_inv {s : Str} (h : RMatch Regex.zero s) : False := by
  cases h

theorem eps_inv {s : Str} (h : RMatch Regex.eps s) : s = [] := by
  cases h; rfl

theorem chr_inv {c : Char} {s : Str} (h : RMatch (Regex.chr c) s) : s = [c] := by
  cases h; rfl

theorem dot_inv {s : Str} (h : RMatch Regex.dot s) : ∃ c, s = [c] := by
  cases h with
  | dot c => exact ⟨c, rfl⟩

theorem cat_inv {r1 r2 : Regex} {s : Str} (h : RMatch (Regex.cat r1 r2) s) :
    ∃ s1 s2, s = s1 ++ s2 ∧ RMatch r1 s1 ∧ RMatch r2 s2 := by
  cases h with
  | cat h1 h2 => exact ⟨_, _, rfl, h1, h2⟩

theorem alt_inv {r1 r2 : Regex} {s : Str} (h : RMatch (Regex.alt r1 r2) s) :
    RMatch r1 s ∨ RMatch r2 s := by
  cases h with
  | altL h => exact Or.inl h
  | altR h => exact Or.inr h

theorem nullable_iff (r : Regex) : nullable r = true ↔ RMatch r [] := by
  induction r with
  | zero => simp [nullable]; intro h; exact zero_inv h
  | eps => simp [nullable]; exact RMatch.eps
  | chr c => simp [nullable]; intro h; simpa using chr_inv h
  | dot => simp [nullable]; intro h; simpa using dot_inv h
  | cat r1 r2 ih1 ih2 =>
    simp only [nullable, Bool.and_eq_true, ih1, ih2]
    constructor
    · rintro ⟨h1, h2⟩
      exact (List.nil_append []) ▸ RMatch.cat h1 h2
    · intro h
      obtain ⟨s1, s2, heq, h1, h2⟩ := cat_inv h
      rcases List.append_eq_nil.mp heq.symm with ⟨e1, e2⟩
      subst e1; subst e2
      exact ⟨h1, h2⟩
  | alt r1 r2 ih1 ih2 =>
    simp only [nullable, Bool.or_eq_true, ih1, ih2]
    constructor
    · rintro (h | h)
      · exact RMatch.altL h
      · exact RMatch.altR h
    · intro h
      exact alt_inv h
  | star r _ =>
    simp [nullable]
    exact RMatch.starNil

theorem star_inv_aux {rs : Regex} {t : Str} (h : RMatch rs t) :
    ∀ r : Regex, rs = Regex.star r →
      t = [] ∨ ∃ s1 s2, t = s1 ++ s2 ∧ s1 ≠ [] ∧ RMatch r s1 ∧ RMatch (Regex.star r) s2 := by
  induction h with
  | eps => intro r hr; exact Regex.noConfusion hr
  | chr c => intro r hr; exact Regex.noConfusion hr
  | dot c => intro r hr; exact Regex.noConfusion hr
  | cat _ _ _ _ => intro r hr; exact Regex.noConfusion hr
  | altL _ _ => intro r hr; exact Regex.noConfusion hr
  | altR _ _ => intro r hr; exact Regex.noConfusion hr
  | starNil => intro r hr; exact Or.inl rfl
  | starCat h1 h2 ih1 ih2 =>
    rename_i r0 s1 s2
    intro r hr
    injection hr with hr0
    cases hr0
    cases s1 with
    | nil =>
      simpa using ih2 r0 rfl
    | cons c s1 =>
      exact Or.inr ⟨c :: s1, s2, rfl, by simp, h1, h2⟩

theorem star_inv {r : Regex} {t : Str} (h : RMatch (Regex.star r) t) :
    t = [] ∨ ∃ s1 s2, t = s1 ++ s2 ∧ s1 ≠ [] ∧ RMatch r s1 ∧ RMatch (Regex.star r) s2 :=
  star_inv_aux h r rfl

theorem deriv_iff (r : Regex) (a : Char) (s : Str) :
    RMatch (deriv r a) s ↔ RMatch r (a :: s) := by
  induction r generalizing s with
  | zero =>
    simp only [deriv]
    constructor
    · intro h; exact absurd h (fun h => zero_inv h)
    · intro h; exact absurd h (fun h => zero_inv h)
  | eps =>
    simp only [deriv]
    constructor
    · intro h; exact absurd h (fun h => zero_inv h)
    · intro h; simpa using eps_inv h
  | chr c =>
    simp only [deriv]
    by_cases hac : a = c
    · subst hac
      simp only [if_pos rfl]
      constructor
      · intro h
        rw [eps_inv h]
        exact RMatch.chr a
      · intro h
        have := chr_inv h
        simp only [List.cons.injEq] at this
        rw [this.2]
        exact RMatch.eps
    · simp only [if_neg hac]
      constructor
      · intro h; exact absurd h (fun h => zero_inv h)
      · intro h
        have := chr_inv h
        simp only [List.cons.injEq] at this
        exact absurd this.1 hac
  | dot =>
    simp only [deriv]
    constructor
    · intro h
      rw [eps_inv h]
      exact RMatch.dot a
    · intro h
      obtain ⟨c, hc⟩ := dot_inv h
      simp only [List.cons.injEq] at hc
      rw [hc.2]
      exact RMatch.eps
  | cat r1 r2 ih1 ih2 =>
    simp only [deriv]
    by_cases hn : nullable r1 = true
    · simp only [if_pos hn]
      constructor
      · intro h
        rcases alt_inv h with h | h
        · obtain ⟨s1, s2, heq, hd, h2⟩ := cat_inv h
          subst heq
          exact List.cons_append a s1 s2 ▸ RMatch.cat ((ih1 s1).mp hd) h2
        · have h1 : RMatch r1 [] := (nullable_iff r1).mp hn
          exact List.nil_append (a :: s) ▸ RMatch.cat h1 ((ih2 s).mp h)
      · intro h
        obtain ⟨s1, s2, heq, h1, h2⟩ := cat_inv h
        match s1, heq, h1 with
        | [], heq, h1 =>
          simp only [List.nil_append] at heq
          subst heq
          exact RMatch.altR ((ih2 s).mpr h2)
        | c :: s1, heq, h1 =>
          simp only [List.cons_append, List.cons.injEq] at heq
          obtain ⟨hc, hs⟩ := heq
          subst hc; subst hs
          exact RMatch.altL (RMatch.cat ((ih1 s1).mpr h1) h2)
    · simp only [if_neg hn]
      constructor
      · intro h
        obtain ⟨s1, s2, heq, hd, h2⟩ := cat_inv h
        subst heq
        exact List.cons_append a s1 s2 ▸ RMatch.cat ((ih1 s1).mp hd) h2
      · intro h
        obtain ⟨s1, s2, heq, h1, h2⟩ := cat_inv h
        match s1, heq, h1 with
        | [], heq, h1 =>
          exact absurd ((nullable_iff r1).mpr h1) (by simpa using hn)
        | c :: s1, heq, h1 =>
          simp only [List.cons_append, List.cons.injEq] at heq
          obtain ⟨hc, hs⟩ := heq
          subst hc; subst hs
          exact RMatch.cat ((ih1 s1).mpr h1) h2
  | alt r1 r2 ih1 ih2 =>
    simp only [deriv]
    constructor
    · intro h
      rcases alt_inv h with h | h
      · exact RMatch.altL ((ih1 s).mp h)
      · exact RMatch.altR ((ih2 s).mp h)
    · intro h
      rcases alt_inv h with h | h
      · exact RMatch.altL ((ih1 s).mpr h)
      · exact RMatch.altR ((ih2 s).mpr h)
  | star r ih =>
    simp only [deriv]
    constructor
    · intro h
      obtain ⟨s1, s2, heq, hd, hs⟩ := cat_inv h
      subst heq
      exact List.cons_append a s1 s2 ▸ RMatch.starCat ((ih s1).mp hd) hs
    · intro h
      rcases star_inv h with hnil | ⟨s1, s2, heq, hne, h1, h2⟩
      · exact absurd hnil (by simp)
      · match s1, hne, heq, h1 with
        | c :: s1, _, heq, h1 =>
          simp only [List.cons_append, List.cons.injEq] at heq
          obtain ⟨hc, hs⟩ := heq
          subst hc; subst hs
          exact RMatch.cat ((ih s1).mpr h1) h2

theorem regexMatch_iff (r : Regex) (s : Str) : regexMatch r s = true ↔ RMatch r s := by
  induction s generalizing r with
  | nil => exact nullable_iff r
  | cons a s ih =>
    have : regexMatch r (a :: s) = regexMatch (deriv r a) s := rfl
    rw [this, ih (deriv r a)]
    exact deriv_iff r a s

theorem parseTail_eq_none_iff (t : Str) (e : Bool) (ty : FilterType) (inh rx : Bool) (i : Nat) :
    parseTail t e ty inh rx i = none ↔
      (charAt t i ≠ ':' ∨ (t.drop (i + 1)).all isSpaceChar = true ∨
        (rx = true ∧ regexCompile (t.drop (i + 1)) = none)) := by
  unfold parseTail
  split_ifs with hc hsp hrx
  · simp [hc, hsp]
  · rcases hr : regexCompile (t.drop (i + 1)) with _ | r <;> simp [hc, hsp, hrx, hr]
  · simp [hc, hsp, hrx]
  · simp [hc]

theorem parseTail_some {t : Str} {e : Bool} {ty : FilterType} {inh rx : Bool} {i : Nat}
    {b : Bool} {f : Filter} (h : parseTail t e ty inh rx i = some (b, f)) :
    b = e ∧ f.mText = t.drop (i + 1) ∧ f.mInheritable = inh ∧ f.mType = ty ∧
      f.strategy = (if rx = true then FS_REGEX else FS_GLOB) := by
  unfold parseTail at h
  split_ifs at h with hc hsp hrx
  · rcases hr : regexCompile (t.drop (i + 1)) with _ | r
    · rw [hr] at h; exact absurd h (by simp)
    · rw [hr] at h
      simp only [Option.some.injEq, Prod.mk.injEq] at h
      obtain ⟨hb, hf⟩ := h
      subst hb; subst hf
      simp [Filter.strategy, hrx]
  · simp only [Option.some.injEq, Prod.mk.injEq] at h
    obtain ⟨hb, hf⟩ := h
    subst hb; subst hf
    simp [Filter.strategy, hrx]

theorem parseStrat_eq (t : Str) (e : Bool) (ty : FilterType) (inh : Bool) (i : Nat) :
    parseStrat t e ty inh i
      = parseTail t e ty inh ((specStrat (charAt t i)).1).isRx (i + (specStrat (charAt t i)).2) := by
  unfold parseStrat specStrat
  split_ifs with h1 h2 <;> simp [FilterStrategy.isRx]

theorem parseFilterRest_eq (t : Str) (e : Bool) :
    parseFilterRest t e
      = parseTail t e (specAxis (charAt t 1)).1 (specAxis (charAt t 1)).2.1
          (specStrategyOf t).isRx (specColonPos t) := by
  unfold parseFilterRest specColonPos specStrategyOf specAxis
  split_ifs with h1 h2 h3 <;> (rw [parseStrat_eq]; norm_num)

theorem parseFilter_eq (t : Str) :
    parseFilter t
      = (if charAt t 0 = '-' ∨ charAt t 0 = '+' then
          parseTail t (charAt t 0 = '-') (specAxis (charAt t 1)).1 (specAxis (charAt t 1)).2.1
            (specStrategyOf t).isRx (specColonPos t)
        else none) := by
  unfold parseFilter
  by_cases h1 : charAt t 0 = '-'
  · rw [if_pos h1, parseFilterRest_eq, if_pos (Or.inl h1)]
    simp [h1]
  · by_cases h2 : charAt t 0 = '+'
    · rw [if_neg h1, if_pos h2, parseFilterRest_eq, if_pos (Or.inr h2)]
      simp [h1]
    · rw [if_neg h1, if_neg h2, if_neg (by tauto)]

theorem isRx_eq_true_iff (s : FilterStrategy) : s.isRx = true ↔ s = FS_REGEX := by
  cases s <;> simp [FilterStrategy.isRx]

theorem parseFilter_eq_none_iff (t : Str) : parseFilter t = none ↔ AddFails t := by
  rw [parseFilter_eq]
  unfold AddFails specPattern
  by_cases hs : charAt t 0 = '-' ∨ charAt t 0 = '+'
  · rw [if_pos hs]
    rw [parseTail_eq_none_iff]
    constructor
    · rintro (h | h | h)
      · exact Or.inr (Or.inl h)
      · exact Or.inr (Or.inr (Or.inl h))
      · exact Or.inr (Or.inr (Or.inr ⟨(isRx_eq_true_iff _).mp h.1, h.2⟩))
    · rintro (⟨h1, h2⟩ | h | h | h)
      · rcases hs with h | h
        · exact absurd h h1
        · exact absurd h h2
      · exact Or.inl h
      · exact Or.inr (Or.inl h)
      · exact Or.inr (Or.inr ⟨(isRx_eq_true_iff _).mpr h.1, h.2⟩)
  · rw [if_neg hs]
    push_neg at hs
    simp [hs.1, hs.2]

theorem parseFilter_sign {t : Str} {b : Bool} {f : Filter}
    (h : parseFilter t = some (b, f)) :
    (charAt t 0 = '-' ∧ b = true) ∨ (charAt t 0 = '+' ∧ b = false) := by
  rw [parseFilter_eq] at h
  split_ifs at h with hs
  · have hb := (parseTail_some h).1
    by_cases hm : charAt t 0 = '-'
    · exact Or.inl ⟨hm, by simp [hb, hm]⟩
    · rcases hs with h0 | h0
      · exact absurd h0 hm
      · exact Or.inr ⟨h0, by simp [hb, hm]⟩

theorem add_fst (fc : FilterChain) (t : Str) : (FilterChain.add fc t).1 = addOK t := by
  unfold FilterChain.add addOK
  cases hp : parseFilter t with
  | none => simp
  | some bf =>
    obtain ⟨b, f⟩ := bf
    cases b <;> simp

theorem add_of_parse (fc : FilterChain) {t : Str} {b : Bool} {f : Filter}
    (h : parseFilter t = some (b, f)) :
    FilterChain.add fc t
      = (true, if b then { fc with mExclusions := fc.mExclusions.add f }
               else { fc with mInclusions := fc.mInclusions.add f }) := by
  unfold FilterChain.add
  rw [h]
  cases b <;> rfl

theorem add_none {fc : FilterChain} {t : Str} (h : parseFilter t = none) :
    FilterChain.add fc t = (false, fc) := by
  unfold FilterChain.add
  rw [h]

theorem matchLoop_eq_any (l : List Filter) (s : Str) (oi : Bool) :
    matchLoop l s oi = l.any (fun f => applicable oi f && f.matches s) := by
  induction l with
  | nil => rfl
  | cons f fs ih =>
    unfold matchLoop
    by_cases hskip : oi && !f.mInheritable
    · rw [if_pos hskip]
      have : applicable oi f = false := by simp [applicable, hskip]
      simp [ih, this]
    · rw [if_neg hskip]
      have : applicable oi f = true := by
        simp only [applicable]
        simp only [Bool.not_eq_true] at hskip ⊢
        simp [hskip]
      by_cases hm : f.matches s
      · simp [hm, this]
      · simp only [Bool.not_eq_true] at hm
        simp [hm, this, ih]

theorem matchPair_eq_or (fc : FilterClass) (p : StringPair) (oi : Bool) :
    FilterClass.matchPair fc p oi
      = (matchLoop fc.mPaths p.second oi || matchLoop fc.mNames p.first oi) := by
  unfold FilterClass.matchPair
  by_cases h1 : matchLoop fc.mPaths p.second oi
  · simp [h1]
  · simp only [Bool.not_eq_true] at h1
    by_cases h2 : matchLoop fc.mNames p.first oi
    · simp [h1, h2]
    · simp only [Bool.not_eq_true] at h2
      simp [h1, h2]

theorem matchLoop_mono {l : List Filter} {s : Str}
    (h : matchLoop l s true = true) : matchLoop l s false = true := by
  induction l with
  | nil => exact absurd h (by simp [matchLoop])
  | cons f fs ih =>
    unfold matchLoop at h ⊢
    simp only [Bool.false_and, if_neg (by simp : ¬(false && !f.mInheritable = true))]
    by_cases hskip : true && !f.mInheritable
    · rw [if_pos hskip] at h
      have := ih h
      by_cases hm : f.matches s
      · simp [hm]
      · simp only [Bool.not_eq_true] at hm
        simp [hm, this]
    · rw [if_neg hskip] at h
      by_cases hm : f.matches s
      · simp [hm]
      · simp only [Bool.not_eq_true] at hm
        simp only [hm, if_neg (by simp : ¬(false = true))] at h ⊢
        exact ih h

theorem loadGo_bad (orig acc : FilterChain) (lines : List Str)
    (h : lines.any badLine = true) : loadGo orig acc lines = (false, orig) := by
  induction lines generalizing acc with
  | nil => exact absurd h (by simp)
  | cons l rest ih =>
    simp only [List.any_cons, Bool.or_eq_true] at h
    unfold loadGo
    by_cases hc : charAt l 0 = '#'
    · rw [if_pos hc]
      refine ih acc ?_
      rcases h with h | h
      · have : badLine l = false := by simp [badLine, isComment, hc]
        rw [this] at h
        exact absurd h (by simp)
      · exact h
    · rw [if_neg hc]
      rcases hadd : FilterChain.add acc l with ⟨b, acc2⟩
      cases b with
      | false => rfl
      | true =>
        have hok : addOK l = true := by
          have h2 := add_fst acc l
          rw [hadd] at h2
          exact h2.symm
        have hbl : badLine l = false := by simp [badLine, hok]
        refine ih acc2 ?_
        rcases h with h | h
        · rw [hbl] at h
          exact absurd h (by simp)
        · exact h

theorem add_parse_excl (fc : FilterChain) {t : Str} {f : Filter}
    (h : parseFilter t = some (true, f)) :
    FilterChain.add fc t = (true, { fc with mExclusions := fc.mExclusions.add f }) := by
  unfold FilterChain.add
  rw [h]

theorem add_parse_incl (fc : FilterChain) {t : Str} {f : Filter}
    (h : parseFilter t = some (false, f)) :
    FilterChain.add fc t = (true, { fc with mInclusions := fc.mInclusions.add f }) := by
  unfold FilterChain.add
  rw [h]

theorem mergeChain_nil (acc : FilterChain) : mergeChain acc [] = acc := by
  rcases acc with ⟨⟨en, ep⟩, ⟨inn, inp⟩⟩
  simp [mergeChain, pick]

theorem mergeChain_cons (acc : FilterChain) (e : Bool) (f : Filter) (ps : List (Bool × Filter)) :
    mergeChain acc ((e, f) :: ps)
      = mergeChain (if e then { acc with mExclusions := acc.mExclusions.add f }
                    else { acc with mInclusions := acc.mInclusions.add f }) ps := by
  cases e <;> cases hty : f.mType <;>
    simp [mergeChain, FilterClass.add, pick, List.filter_cons, hty, List.append_assoc]

theorem loadGo_ok (orig : FilterChain) (lines : List Str) :
    ∀ acc : FilterChain, lines.all (fun l => isComment l || addOK l) = true →
      loadGo orig acc lines = (true, mergeChain acc (parsedOf lines)) := by
  induction lines with
  | nil =>
    intro acc _
    rw [show parsedOf [] = [] from rfl, mergeChain_nil]
    rfl
  | cons l rest ih =>
    intro acc h
    simp only [List.all_cons, Bool.and_eq_true] at h
    obtain ⟨hl, hrest⟩ := h
    unfold loadGo
    by_cases hc : charAt l 0 = '#'
    · rw [if_pos hc, ih acc hrest]
      simp [parsedOf, hc]
    · rw [if_neg hc]
      have hok : addOK l = true := by
        simp only [isComment, hc, decide_False, Bool.false_or] at hl
        exact hl
      obtain ⟨bf, hp⟩ := Option.isSome_iff_exists.mp hok
      obtain ⟨b, f⟩ := bf
      have hps : parsedOf (l :: rest) = (b, f) :: parsedOf rest := by
        simp [parsedOf, hc, hp]
      rw [hps, mergeChain_cons]
      cases b with
      | true =>
        rw [add_parse_excl _ hp]
        simpa using ih _ hrest
      | false =>
        rw [add_parse_incl _ hp]
        simpa using ih _ hrest

theorem chainOf_eq_merge (ps : List (Bool × Filter)) :
    chainOf ps = mergeChain emptyChain ps := by
  simp [chainOf, mergeChain, emptyChain]

theorem parsedOf_comments {lines : List Str} (h : lines.all isComment = true) :
    parsedOf lines = [] := by
  induction lines with
  | nil => rfl
  | cons l rest ih =>
    simp only [List.all_cons, Bool.and_eq_true] at h
    have hc : charAt l 0 = '#' := of_decide_eq_true h.1
    simp [parsedOf, hc]
    simpa [parsedOf] using ih h.2

theorem matchPair_mono {fc : FilterClass} {p : StringPair}
    (h : fc.matchPair p true = true) : fc.matchPair p false = true := by
  rw [matchPair_eq_or] at h ⊢
  simp only [Bool.or_eq_true] at h ⊢
  rcases h with h | h
  · exact Or.inl (matchLoop_mono h)
  · exact Or.inr (matchLoop_mono h)

/-- Claim C1 (atomic reload): for every chain state and every input that
either fails to be read (`none`) or contains at least one invalid
non-comment line, `load` returns false, the chain equals its prior state,
and hence every `excluded`/`included` query answers exactly as before — no
filter parsed during the failed attempt is retained. -/
theorem load_atomic_rollback (fc : FilterChain) (input : Option (List Str))
    (h : input = none ∨ ∃ lines, input = some lines ∧ lines.any badLine = true) :
    FilterChain.load fc input = (false, fc) ∧
      ∀ (p : StringPair) (oi : Bool),
        (FilterChain.load fc input).2.excluded p oi = fc.excluded p oi ∧
        (FilterChain.load fc input).2.included p oi = fc.included p oi := by
  have hmain : FilterChain.load fc input = (false, fc) := by
    rcases h with h | ⟨lines, hin, hbad⟩
    · rw [h]; rfl
    · rw [hin]
      show loadGo fc emptyChain lines = (false, fc)
      exact loadGo_bad fc emptyChain lines hbad
  refine ⟨hmain, ?_⟩
  intro p oi
  rw [hmain]
  exact ⟨rfl, rfl⟩

/-- Witness for C1: a chain holding one rule survives a failed reload (one
comment line, one invalid line) unchanged. -/
theorem load_atomic_rollback_witness :
    FilterChain.load (FilterChain.add emptyChain (str "-n:a")).2 (some [str "#c", str "-"])
      = (false, (FilterChain.add emptyChain (str "-n:a")).2) :=
  (load_atomic_rollback (FilterChain.add emptyChain (str "-n:a")).2
    (some [str "#c", str "-"]) (Or.inr ⟨[str "#c", str "-"], rfl, by decide⟩)).1

/-- Claim C2 (contract of add): `add` returns false exactly when the line has
an invalid leading sign, lacks the `':'` separator after the optional axis
and strategy tokens, has an empty or all-whitespace pattern, or has a regex
pattern that fails to compile; a failed `add` leaves the chain unmodified,
and a successful one appends exactly one filter to the exclusion set (sign
`'-'`) or the inclusion set (sign `'+'`). -/
theorem add_contract (fc : FilterChain) (t : Str) :
    ((FilterChain.add fc t).1 = false ↔ AddFails t) ∧
      ((FilterChain.add fc t).1 = false → (FilterChain.add fc t).2 = fc) ∧
      ((FilterChain.add fc t).1 = true →
        ∃ f : Filter,
          (charAt t 0 = '-' ∧
            (FilterChain.add fc t).2 = { fc with mExclusions := fc.mExclusions.add f }) ∨
          (charAt t 0 = '+' ∧
            (FilterChain.add fc t).2 = { fc with mInclusions := fc.mInclusions.add f })) := by
  refine ⟨?_, ?_, ?_⟩
  · rw [add_fst, ← parseFilter_eq_none_iff]
    unfold addOK
    cases parseFilter t <;> simp
  · intro h
    have hn : parseFilter t = none := by
      rw [add_fst] at h
      unfold addOK at h
      cases hp : parseFilter t with
      | none => rfl
      | some bf => rw [hp] at h; simp at h
    rw [add_none hn]
  · intro h
    rw [add_fst] at h
    unfold addOK at h
    obtain ⟨⟨b, f⟩, hp⟩ := Option.isSome_iff_exists.mp h
    refine ⟨f, ?_⟩
    rcases parseFilter_sign hp with ⟨hm, hb⟩ | ⟨hpl, hb⟩
    · subst hb
      exact Or.inl ⟨hm, by rw [add_parse_excl _ hp]⟩
    · subst hb
      exact Or.inr ⟨hpl, by rw [add_parse_incl _ hp]⟩

/-- Witness for C2: a line with an invalid sign is rejected and the chain is
left unmodified. -/
theorem add_contract_witness :
    (FilterChain.add emptyChain (str "x:foo")).1 = false ∧
      (FilterChain.add emptyChain (str "x:foo")).2 = emptyChain :=
  ⟨by decide, (add_contract emptyChain (str "x:foo")).2.1 (by decide)⟩

/-- Claim C3 (token grammar): every line accepted by `add` produces a filter
whose axis, inheritable flag and strategy are exactly the ones derived by the
spec's token rules — `N` non-inheritable name consuming one character, `n`
inheritable name consuming one, `p` inheritable path consuming one, anything
else an inheritable name consuming none; then `g` glob consuming one, `r`
regex consuming one, anything else glob consuming none. -/
theorem add_token_grammar (fc fc2 : FilterChain) (t : Str)
    (h : FilterChain.add fc t = (true, fc2)) :
    ∃ (e : Bool) (f : Filter),
      parseFilter t = some (e, f) ∧
      fc2 = (if e then { fc with mExclusions := fc.mExclusions.add f }
             else { fc with mInclusions := fc.mInclusions.add f }) ∧
      f.mType = (specAxis (charAt t 1)).1 ∧
      f.mInheritable = (specAxis (charAt t 1)).2.1 ∧
      f.strategy = (specStrat (charAt t (1 + (specAxis (charAt t 1)).2.2))).1 := by
  have h1 : (FilterChain.add fc t).1 = true := by rw [h]
  rw [add_fst] at h1
  unfold addOK at h1
  obtain ⟨⟨b, f⟩, hp⟩ := Option.isSome_iff_exists.mp h1
  have hp2 := hp
  rw [parseFilter_eq] at hp2
  by_cases hs : charAt t 0 = '-' ∨ charAt t 0 = '+'
  · rw [if_pos hs] at hp2
    obtain ⟨hb, htext, hinh, hty, hstr⟩ := parseTail_some hp2
    refine ⟨b, f, hp, ?_, hty, hinh, ?_⟩
    · have h2 := add_of_parse fc hp
      rw [h] at h2
      exact congrArg Prod.snd h2
    · unfold specStrategyOf at hstr
      cases hst : (specStrat (charAt t (1 + (specAxis (charAt t 1)).2.2))).1 with
      | FS_GLOB => rw [hst] at hstr; simpa [FilterStrategy.isRx] using hstr
      | FS_REGEX => rw [hst] at hstr; simpa [FilterStrategy.isRx] using hstr
  · rw [if_neg hs] at hp2
    exact absurd hp2 (by simp)

/-- Witness for C3 at the line `-Nr:a` (non-inheritable name rule, regex
strategy). -/
theorem add_token_grammar_witness :
    ∃ (e : Bool) (f : Filter),
      parseFilter (str "-Nr:a") = some (e, f) ∧
      (FilterChain.add emptyChain (str "-Nr:a")).2
        = (if e then { emptyChain with mExclusions := emptyChain.mExclusions.add f }
           else { emptyChain with mInclusions := emptyChain.mInclusions.add f }) ∧
      f.mType = (specAxis (charAt (str "-Nr:a") 1)).1 ∧
      f.mInheritable = (specAxis (charAt (str "-Nr:a") 1)).2.1 ∧
      f.strategy
        = (specStrat (charAt (str "-Nr:a") (1 + (specAxis (charAt (str "-Nr:a") 1)).2.2))).1 :=
  add_token_grammar emptyChain (FilterChain.add emptyChain (str "-Nr:a")).2 (str "-Nr:a")
    (by decide)

/-- Claim C4 (match evaluation): the two skip-and-short-circuit loops of
`FilterClass::match` compute exactly the logical OR over all applicable rules
(path-rules against the pair's path, name-rules against its name); a rule is
applicable unless `onlyInheritable` is set and the rule is non-inheritable.
Hence evaluation order affects only diagnostics, never the boolean result. -/
theorem match_or_semantics (fc : FilterClass) (p : StringPair) (oi : Bool) :
    (FilterClass.matchPair fc p oi
       = (fc.mPaths.any (fun f => applicable oi f && f.matches p.second)
           || fc.mNames.any (fun f => applicable oi f && f.matches p.first))) ∧
      (FilterClass.matchPair fc p oi = true ↔
        ((∃ f ∈ fc.mPaths, applicable oi f = true ∧ f.matches p.second = true)
          ∨ (∃ f ∈ fc.mNames, applicable oi f = true ∧ f.matches p.first = true))) := by
  constructor
  · rw [matchPair_eq_or, matchLoop_eq_any, matchLoop_eq_any]
  · rw [matchPair_eq_or, matchLoop_eq_any, matchLoop_eq_any]
    simp [List.any_eq_true, Bool.and_eq_true]

/-- Witness for C4: evaluating the OR semantics on an empty rule class. -/
theorem match_or_semantics_witness :
    FilterClass.matchPair ⟨[], []⟩ ⟨[], []⟩ false = false := by
  have h := (match_or_semantics ⟨[], []⟩ ⟨[], []⟩ false).1
  simpa using h

/-- Claim C5 (successful reload replaces): when every non-comment line of the
input is valid, `load` returns true and the chain afterwards consists exactly
of the filters parsed from the non-comment lines, in order, routed by
direction and axis — independently of the previous chain state (replacement,
not merge); comment lines are skipped without being parsed. -/
theorem load_success_replaces (fc : FilterChain) (lines : List Str)
    (h : lines.all (fun l => isComment l || addOK l) = true) :
    FilterChain.load fc (some lines) = (true, chainOf (parsedOf lines)) := by
  show loadGo fc emptyChain lines = _
  rw [loadGo_ok fc lines emptyChain h, chainOf_eq_merge]

/-- Witness for C5: reloading a non-empty chain from a valid three-line
source (one comment) yields exactly the chain built from the two parsed
lines. -/
theorem load_success_replaces_witness :
    FilterChain.load (FilterChain.add emptyChain (str "-n:a")).2
        (some [str "-N:z", str "#c", str "+pr:b"])
      = (true, chainOf (parsedOf [str "-N:z", str "#c", str "+pr:b"])) :=
  load_success_replaces (FilterChain.add emptyChain (str "-n:a")).2
    [str "-N:z", str "#c", str "+pr:b"] (by decide)

/-- Claim C6 (regex full-match semantics): a RegexFilter's `match` accepts a
candidate exactly when the ENTIRE candidate belongs to the language of the
compiled regex (anchored full match, not substring search); in particular the
rule added via `-r:a` does not match the candidate `cat` though it does match
`a`. -/
theorem regex_full_match_semantics :
    (∀ (t : Str) (inh : Bool) (ty : FilterType) (r : Regex) (s : Str),
        Filter.matches ⟨t, inh, ty, FilterImpl.regex r⟩ s = true ↔ RMatch r s) ∧
      (parseFilter (str "-r:a")).map (fun x => x.2.matches (str "cat")) = some false ∧
      (parseFilter (str "-r:a")).map (fun x => x.2.matches (str "a")) = some true := by
  refine ⟨?_, by decide, by decide⟩
  intro t inh ty r s
  exact regexMatch_iff r s

/-- Witness for C6: the anchored semantics evaluated at a one-character
regex and candidate. -/
theorem regex_full_match_semantics_witness :
    RMatch (Regex.chr 'a') (str "a") :=
  (regex_full_match_semantics.1 (str "a") true FT_NAME (Regex.chr 'a') (str "a")).mp (by decide)

/-- Claim C7 (directional independence): a successful `add` of an exclusion
line (sign `-`) leaves every `included` query unchanged, and an inclusion
line (sign `+`) leaves every `excluded` query unchanged; after `add "-N:x"`
and `add "+N:x"` both `excluded` and `included` hold simultaneously for the
pair (x, x) with `onlyInheritable` false. -/
theorem directional_independence :
    (∀ (fc : FilterChain) (t : Str) (fc2 : FilterChain),
        charAt t 0 = '-' → FilterChain.add fc t = (true, fc2) →
        ∀ (p : StringPair) (oi : Bool), fc2.included p oi = fc.included p oi) ∧
      (∀ (fc : FilterChain) (t : Str) (fc2 : FilterChain),
        charAt t 0 = '+' → FilterChain.add fc t = (true, fc2) →
        ∀ (p : StringPair) (oi : Bool), fc2.excluded p oi = fc.excluded p oi) ∧
      ((FilterChain.add emptyChain (str "-N:x")).1 = true ∧
        (FilterChain.add (FilterChain.add emptyChain (str "-N:x")).2 (str "+N:x")).1 = true ∧
        FilterChain.excluded
          (FilterChain.add (FilterChain.add emptyChain (str "-N:x")).2 (str "+N:x")).2
          ⟨str "x", str "x"⟩ false = true ∧
        FilterChain.included
          (FilterChain.add (FilterChain.add emptyChain (str "-N:x")).2 (str "+N:x")).2
          ⟨str "x", str "x"⟩ false = true) := by
  refine ⟨?_, ?_, by decide, by decide, by decide, by decide⟩
  · intro fc t fc2 hm hadd p oi
    have h1 : (FilterChain.add fc t).1 = true := by rw [hadd]
    rw [add_fst] at h1
    unfold addOK at h1
    obtain ⟨⟨b, f⟩, hp⟩ := Option.isSome_iff_exists.mp h1
    rcases parseFilter_sign hp with ⟨_, hb⟩ | ⟨hplus, _⟩
    · subst hb
      have h2 := add_parse_excl fc hp
      rw [hadd] at h2
      injection h2 with _ h3
      rw [h3]
      rfl
    · rw [hm] at hplus
      exact absurd hplus (by decide)
  · intro fc t fc2 hpl hadd p oi
    have h1 : (FilterChain.add fc t).1 = true := by rw [hadd]
    rw [add_fst] at h1
    unfold addOK at h1
    obtain ⟨⟨b, f⟩, hp⟩ := Option.isSome_iff_exists.mp h1
    rcases parseFilter_sign hp with ⟨hminus, _⟩ | ⟨_, hb⟩
    · rw [hpl] at hminus
      exact absurd hminus (by decide)
    · subst hb
      have h2 := add_parse_incl fc hp
      rw [hadd] at h2
      injection h2 with _ h3
      rw [h3]
      rfl

/-- Witness for C7: adding an exclusion rule leaves an `included` query
unchanged. -/
theorem directional_independence_witness :
    FilterChain.included (FilterChain.add emptyChain (str "-N:y")).2 ⟨str "b", str "b"⟩ false
      = FilterChain.included emptyChain ⟨str "b", str "b"⟩ false :=
  directional_independence.1 emptyChain (str "-N:y")
    (FilterChain.add emptyChain (str "-N:y")).2 (by decide) (by decide) ⟨str "b", str "b"⟩ false

/-- Claim C8 (round trip): starting from any chain, `add "-p:*.log"` succeeds,
appending to the exclusion set one filter with axis Path, strategy Glob and
text `*.log` (preserved exactly as the remainder after the colon), and the
diagnostic rendering of that filter is `PATH/GLOB:*.log`. -/
theorem roundtrip_path_glob (fc : FilterChain) :
    ∃ f : Filter,
      parseFilter (str "-p:*.log") = some (true, f) ∧
      FilterChain.add fc (str "-p:*.log")
        = (true, { fc with mExclusions := fc.mExclusions.add f }) ∧
      f.mType = FT_PATH ∧ f.strategy = FS_GLOB ∧ f.mText = str "*.log" ∧
      filterText f = str "PATH/GLOB:*.log" := by
  refine ⟨⟨str "*.log", true, FT_PATH, FilterImpl.glob⟩,
    by decide, ?_, by decide, by decide, by decide, by decide⟩
  exact add_parse_excl fc (by decide)

/-- Witness for C8: the round trip evaluated starting from the empty chain. -/
theorem roundtrip_path_glob_witness :
    ∃ f : Filter,
      parseFilter (str "-p:*.log") = some (true, f) ∧
      FilterChain.add emptyChain (str "-p:*.log")
        = (true, { emptyChain with mExclusions := emptyChain.mExclusions.add f }) ∧
      f.mType = FT_PATH ∧ f.strategy = FS_GLOB ∧ f.mText = str "*.log" ∧
      filterText f = str "PATH/GLOB:*.log" :=
  roundtrip_path_glob emptyChain

/-- Claim C9 (inheritance-restriction monotonicity): a query restricted to
inheritable rules can only lose matches — if `excluded`/`included` holds
with `onlyInheritable` true, it also holds with `onlyInheritable` false. -/
theorem inheritance_monotone (fc : FilterChain) (p : StringPair) :
    (FilterChain.excluded fc p true = true → FilterChain.excluded fc p false = true) ∧
      (FilterChain.included fc p true = true → FilterChain.included fc p false = true) :=
  ⟨fun h => matchPair_mono h, fun h => matchPair_mono h⟩

/-- Witness for C9 at a chain with one inheritable name rule. -/
theorem inheritance_monotone_witness :
    FilterChain.excluded (FilterChain.add emptyChain (str "-n:w")).2 ⟨str "w", str "w"⟩ false
      = true :=
  (inheritance_monotone (FilterChain.add emptyChain (str "-n:w")).2 ⟨str "w", str "w"⟩).1
    (by decide)

/-- Claim C10 (empty reload erases): a successful `load` whose lines are all
comments (or absent) returns true and leaves the chain empty — `empty()`
holds and every query answers false, the previously loaded rules being
discarded. -/
theorem load_comments_erases (fc : FilterChain) (lines : List Str)
    (h : lines.all isComment = true) :
    FilterChain.load fc (some lines) = (true, emptyChain) ∧
      (FilterChain.load fc (some lines)).2.emptyB = true ∧
      ∀ (p : StringPair) (oi : Bool),
        (FilterChain.load fc (some lines)).2.excluded p oi = false ∧
        (FilterChain.load fc (some lines)).2.included p oi = false := by
  have hall : lines.all (fun l => isComment l || addOK l) = true := by
    rw [List.all_eq_true] at h ⊢
    intro l hl
    simp [h l hl]
  have hmain : FilterChain.load fc (some lines) = (true, emptyChain) := by
    show loadGo fc emptyChain lines = _
    rw [loadGo_ok fc lines emptyChain hall, parsedOf_comments h, mergeChain_nil]
  refine ⟨hmain, ?_, ?_⟩
  · rw [hmain]; rfl
  · intro p oi
    rw [hmain]
    exact ⟨rfl, rfl⟩

/-- Witness for C10: a chain with one rule reloaded from a comment-only
source becomes the empty chain. -/
theorem load_comments_erases_witness :
    FilterChain.load (FilterChain.add emptyChain (str "+g:q")).2 (some [str "#a", str "#b"])
      = (true, emptyChain) :=
  (load_comments_erases (FilterChain.add emptyChain (str "+g:q")).2
    [str "#a", str "#b"] (by decide)).1

end MegaFilter
